import Mathlib

/-!
Verification development for the `isearch` daemon (`src/daemon.js`,
`src/lib/constants.js`, `src/lib/parser.js`).

JavaScript strings are embedded as lists of code points (`List Nat`);
the JS `Map` backing the result cache is embedded as an association
list in insertion order (front = oldest entry, the key JS's
`map.keys().next().value` yields).  External browser effects
(navigation, CAPTCHA probe, parser output) are oracle inputs to the
pipeline step function, mirroring the call boundary of `search`.
-/

namespace ISearch

/-- `MAX_CONCURRENT` from `src/lib/constants.js`. -/
def MAX_CONCURRENT : Nat := 3

/-- `CACHE_MAX` from `src/lib/constants.js`. -/
def CACHE_MAX : Nat := 50

/-- `MAX_POOL_SIZE = MAX_CONCURRENT` from `src/daemon.js`. -/
def MAX_POOL_SIZE : Nat := MAX_CONCURRENT

/-- A JavaScript string, embedded as its list of code points. -/
abbrev Str := List Nat

/-- Code points of a Lean string, used to write concrete JS strings. -/
def strCodes (s : String) : Str := s.data.map Char.toNat

-- ═══════════════════════════════════════════════════════════════
-- Admission controller state (`activeTabs`, `waitQueue` in daemon.js)
-- ═══════════════════════════════════════════════════════════════

/-- The daemon's admission-controller state: the `activeTabs` counter and
the `waitQueue` of pending `resolve` callbacks (waiters named by ids,
listed in arrival order, oldest first). -/
structure Sem where
  activeTabs : Nat
  waitQueue : List Nat
deriving DecidableEq

/-- `acquireSlot` from `src/daemon.js`: if `activeTabs < MAX_CONCURRENT`
increment and resolve immediately (`true`); otherwise push the caller's
resolver onto `waitQueue` (`false` = suspended). -/
def acquireSlot (s : Sem) (w : Nat) : Sem × Bool :=
  if s.activeTabs < MAX_CONCURRENT then
    ({ s with activeTabs := s.activeTabs + 1 }, true)
  else
    ({ s with waitQueue := s.waitQueue ++ [w] }, false)

/-- `releaseSlot` from `src/daemon.js`: if the queue is non-empty, shift
the oldest waiter and transfer the slot to it (counter untouched);
otherwise decrement `activeTabs`. -/
def releaseSlot (s : Sem) : Sem × Option Nat :=
  match s.waitQueue with
  | next :: rest => ({ s with waitQueue := rest }, some next)
  | [] => ({ s with activeTabs := s.activeTabs - 1 }, none)

/-- Issue acquires for waiter ids `0 .. n-1` in order, collecting the ids
admitted immediately. -/
def runAcquires : Nat → Sem × List Nat
  | 0 => (⟨0, []⟩, [])
  | n + 1 =>
    let (s, adm) := runAcquires n
    let (s', ok) := acquireSlot s n
    (s', adm ++ if ok then [n] else [])

/-- Perform `k` releases, collecting the resumed waiter ids in order. -/
def runReleases : Nat → Sem → Sem × List Nat
  | 0, s => (s, [])
  | k + 1, s =>
    let (s', r) := releaseSlot s
    let (s'', rs) := runReleases k s'
    (s'', (match r with | some w => [w] | none => []) ++ rs)

-- ═══════════════════════════════════════════════════════════════
-- Query-key normalization (`query.toLowerCase().trim()` in daemon.js)
-- ═══════════════════════════════════════════════════════════════

/-- The exact code-point class `String.prototype.trim` removes
(ECMA-262 WhiteSpace ∪ LineTerminator): TAB, LF, VT, FF, CR, SP, NBSP,
OGHAM SPACE MARK, EN QUAD … HAIR SPACE (U+2000–U+200A), LINE and
PARAGRAPH SEPARATOR, NARROW NBSP, MEDIUM MATHEMATICAL SPACE,
IDEOGRAPHIC SPACE, and ZWNBSP (U+FEFF). -/
def isWs (c : Nat) : Bool :=
  decide (c = 32 ∨ c = 9 ∨ c = 10 ∨ c = 11 ∨ c = 12 ∨ c = 13 ∨
    c = 160 ∨ c = 5760 ∨ (8192 ≤ c ∧ c ≤ 8202) ∨ c = 8232 ∨ c = 8233 ∨
    c = 8239 ∨ c = 8287 ∨ c = 12288 ∨ c = 65279)

/-- `String.prototype.toLowerCase` on one code point, exact on every
code point below 256: there the Unicode lowercase mapping is precisely
`A`–`Z` and `À`–`Þ` (except `×`, U+00D7) gaining 32, all else fixed; it
is also exact on every whitespace code point (none is cased).  JS's
full Unicode case conversion beyond that range (including the
context-sensitive final sigma) is outside this embedding, and the
key-normalization theorems quantify only over the faithful domain
(`lowerFaithful`). -/
def jsToLower (c : Nat) : Nat :=
  if (65 ≤ c ∧ c ≤ 90) ∨ (192 ≤ c ∧ c ≤ 222 ∧ ¬ c = 215) then c + 32 else c

/-- The code points on which `jsToLower` agrees with JS
`String.prototype.toLowerCase`: everything below 256, plus all
whitespace. -/
def lowerFaithful (l : Str) : Prop := ∀ c ∈ l, c < 256 ∨ isWs c = true

instance (l : Str) : Decidable (lowerFaithful l) := by
  unfold lowerFaithful
  infer_instance

/-- `String.prototype.trim`: drop whitespace from both ends. -/
def trimList (l : Str) : Str :=
  ((l.dropWhile isWs).reverse.dropWhile isWs).reverse

/-- The cache key computed by `search`: `query.toLowerCase().trim()`. -/
def cacheKey (q : Str) : Str := trimList (q.map jsToLower)

/-- A string with no leading or trailing whitespace. -/
def trimmed (l : Str) : Prop := trimList l = l

/-- Every code point of the list is whitespace. -/
def allWs (l : Str) : Prop := ∀ c ∈ l, isWs c = true

instance (l : Str) : Decidable (trimmed l) := by
  unfold trimmed
  infer_instance

instance (l : Str) : Decidable (allWs l) := by
  unfold allWs
  infer_instance

-- ═══════════════════════════════════════════════════════════════
-- JS `Map` model (insertion order, front = oldest) and the cache ops
-- ═══════════════════════════════════════════════════════════════

/-- The result cache: a JS `Map` from normalized query key to markdown,
kept in insertion order (front = oldest). -/
abbrev CacheMap := List (Str × Str)

/-- `map.has(k)`. -/
def mapHas (m : CacheMap) (k : Str) : Bool := m.any fun p => p.1 = k

/-- `map.get(k)`. -/
def mapGet (m : CacheMap) (k : Str) : Option Str :=
  (m.find? fun p => p.1 = k).map Prod.snd

/-- `map.set(k, v)`: update in place if the key exists (JS `Map.set`
keeps the original position), otherwise append at the end. -/
def mapSet (m : CacheMap) (k v : Str) : CacheMap :=
  if mapHas m k then
    m.map fun p => if p.1 = k then (k, v) else p
  else
    m ++ [(k, v)]

/-- `map.delete(k)`. -/
def mapDelete (m : CacheMap) (k : Str) : CacheMap :=
  m.filter fun p => ¬(p.1 = k)

/-- `map.keys().next().value`: the oldest key. -/
def firstKey (m : CacheMap) : Option Str := m.head?.map Prod.fst

/-- The cache-hit path of `search`: on a hit, `delete` then `set` the
entry (moving it to the most-recently-used end); on a miss, leave the
map untouched. -/
def cacheGetStep (m : CacheMap) (k : Str) : Option Str × CacheMap :=
  match mapGet m k with
  | some v => (some v, mapSet (mapDelete m k) k v)
  | none => (none, m)

/-- The cache-update path of `search`: `cache.set(cacheKey, markdown)`
then, if `cache.size > CACHE_MAX`, delete the oldest key. -/
def cachePutStep (m : CacheMap) (k v : Str) : CacheMap :=
  if CACHE_MAX < (mapSet m k v).length then
    match firstKey (mapSet m k v) with
    | some fk => mapDelete (mapSet m k v) fk
    | none => mapSet m k v
  else mapSet m k v

-- ═══════════════════════════════════════════════════════════════
-- Daemon state and the retrieval pipeline (`search` in daemon.js)
-- ═══════════════════════════════════════════════════════════════

/-- Error categories of the pipeline and request handler; the daemon
surfaces each as the string given by `ErrMsg.text`. -/
inductive ErrMsg
  | invalidRequest
  | captchaDetected
  | navigationFailed
  | parseFailed
  | constructFailed
deriving DecidableEq

/-- The JSON error text for each category (quotes inside the CAPTCHA
message elided). -/
def ErrMsg.text : ErrMsg → String
  | .invalidRequest => "Invalid request"
  | .captchaDetected => "CAPTCHA detected. Run npm run setup to solve."
  | .navigationFailed => "Navigation failed"
  | .parseFailed => "Failed to parse content."
  | .constructFailed => "Page construction failed"

/-- A JSON response object; `none` means the field is absent. -/
structure Response where
  markdown : Option Str
  fromCache : Option Bool
  timeMs : Option Nat
  error : Option ErrMsg
  stopped : Option Bool
  statusRunning : Option Bool
deriving DecidableEq

/-- `{"error": "Invalid request"}` — the only field present. -/
def invalidResponse : Response :=
  ⟨none, none, none, some ErrMsg.invalidRequest, none, none⟩

/-- `{"stopped": true}`. -/
def stoppedResponse : Response :=
  ⟨none, none, none, none, some true, none⟩

/-- The daemon's per-process mutable state touched by `search` and
`handleRequest` (browser handle generation, cache, admission counters,
page pool, fresh-page counter, launch generation, idle timer). -/
structure DaemonState where
  browserContext : Option Nat
  cache : CacheMap
  activeTabs : Nat
  waitQueue : List Nat
  pagePool : List Nat
  nextPageId : Nat
  nextBrowserId : Nat
  idleArmed : Bool
deriving DecidableEq

/-- Outcomes of the external browser/parser calls made by one retrieval:
whether page construction succeeds, whether navigation succeeds,
whether the CAPTCHA probe fires, what `parseHtml` returns (`none` =
`null`, `some []` = empty string), and the elapsed wall time. -/
structure Env where
  constructOk : Bool
  navOk : Bool
  captcha : Bool
  parsed : Option Str
  elapsed : Nat
deriving DecidableEq

/-- The admission-controller projection of the daemon state. -/
def DaemonState.sem (s : DaemonState) : Sem := ⟨s.activeTabs, s.waitQueue⟩

/-- Write an admission-controller state back into the daemon state. -/
def withSem (s : DaemonState) (m : Sem) : DaemonState :=
  { s with activeTabs := m.activeTabs, waitQueue := m.waitQueue }

/-- `getPage` from `src/daemon.js`: pop a pooled page if one exists;
otherwise await `initContext` (launching the browser if needed) and
construct a fresh page.  `env.constructOk = false` models the
construction path failing (context launch or `newPage` rejecting). -/
def getPage (env : Env) (s : DaemonState) : Except ErrMsg (Nat × DaemonState) :=
  match s.pagePool with
  | p :: rest => Except.ok (p, { s with pagePool := rest })
  | [] =>
    if env.constructOk then
      match s.browserContext with
      | some _ =>
        Except.ok (s.nextPageId, { s with nextPageId := s.nextPageId + 1 })
      | none =>
        Except.ok (s.nextPageId,
          { s with nextPageId := s.nextPageId + 1,
                   browserContext := some s.nextBrowserId,
                   nextBrowserId := s.nextBrowserId + 1 })
    else
      Except.error ErrMsg.constructFailed

/-- The `try` block of `search` after the slot is acquired: check out a
page, navigate, probe for CAPTCHA, parse, and on success update the
cache.  Returns the outcome, the checked-out page (if construction got
that far — the code's `page` local, `none` when it is still null at the
`finally`), and the updated state. -/
def searchBody (env : Env) (s : DaemonState) (key : Str) :
    Except ErrMsg Str × Option Nat × DaemonState :=
  match getPage env s with
  | Except.error e => (Except.error e, none, s)
  | Except.ok (page, s1) =>
    if env.navOk = false then
      (Except.error ErrMsg.navigationFailed, some page, s1)
    else if env.captcha then
      (Except.error ErrMsg.captchaDetected, some page, s1)
    else
      match env.parsed with
      | none => (Except.error ErrMsg.parseFailed, some page, s1)
      | some md =>
        if md = [] then
          (Except.error ErrMsg.parseFailed, some page, s1)
        else
          (Except.ok md, some page, { s1 with cache := cachePutStep s1.cache key md })

/-- The pool-return branch of `search`'s `finally` block: push the page
back when the pool is below `MAX_POOL_SIZE`, else close (drop) it. -/
def poolReleasePage (pool : List Nat) (p : Nat) : List Nat :=
  if pool.length < MAX_POOL_SIZE then p :: pool else pool

/-- The `finally` block of `search`: release the page (if one was
checked out) to the pool or close it, then `releaseSlot()`.  Returns
the new state, the waiter resumed by the slot release (if any), and how
many page releases were performed. -/
def finallyStep (s : DaemonState) (page : Option Nat) :
    DaemonState × Option Nat × Nat :=
  match page with
  | none =>
    match releaseSlot s.sem with
    | (m, resumed) => (withSem s m, resumed, 0)
  | some p =>
    match releaseSlot { s with pagePool := poolReleasePage s.pagePool p }.sem with
    | (m, resumed) =>
      (withSem { s with pagePool := poolReleasePage s.pagePool p } m, resumed, 1)

/-- Accounting ledger for one `search` call: how many times the slot was
acquired and released and how many pages were checked out and released. -/
structure Ledger where
  slotAcquires : Nat
  slotReleases : Nat
  pagesCheckedOut : Nat
  pageReleases : Nat
deriving DecidableEq

/-- The outcome of one `search` invocation: a response, or suspension in
the admission queue (the promise returned by `acquireSlot` is pending). -/
inductive SearchOutcome
  | response (r : Response)
  | queued (wid : Nat)
deriving DecidableEq

/-- `search` from `src/daemon.js`: normalize the key, check the cache
(with LRU refresh on hit), otherwise acquire a slot and run the body
with its `finally` block.  `wid` names the caller for the wait queue. -/
def searchStep (env : Env) (s : DaemonState) (q : Str) (wid : Nat) :
    SearchOutcome × DaemonState × Ledger :=
  match cacheGetStep s.cache (cacheKey q) with
  | (some cached, m') =>
    (SearchOutcome.response ⟨some cached, some true, some env.elapsed, none, none, none⟩,
     { s with cache := m' }, ⟨0, 0, 0, 0⟩)
  | (none, _) =>
    match acquireSlot s.sem wid with
    | (m, false) => (SearchOutcome.queued wid, withSem s m, ⟨0, 0, 0, 0⟩)
    | (m, true) =>
      match searchBody env (withSem s m) (cacheKey q) with
      | (outcome, page, s1) =>
        match finallyStep s1 page with
        | (s2, _, pageRel) =>
          (SearchOutcome.response
            (match outcome with
             | Except.ok md => ⟨some md, some false, some env.elapsed, none, none, none⟩
             | Except.error e => ⟨none, none, some env.elapsed, some e, none, none⟩),
           s2,
           ⟨1, 1, (match page with | some _ => 1 | none => 0), pageRel⟩)

/-- Iterate the state effect of `n` consecutive `search` calls under a
fixed environment (used to trace repeated challenge detections). -/
def iterSearch (env : Env) (q : Str) (wid : Nat) : Nat → DaemonState → DaemonState
  | 0, s => s
  | n + 1, s => iterSearch env q wid n (searchStep env s q wid).2.1

/-- Modelled from the spec's words (§4.2): `release(handle, healthy)`
returns the handle to the pool if below capacity AND still usable, else
discards it.  Stated for comparison with `poolReleasePage`, the release
the code actually performs, which takes no health input. -/
def releaseSpec (pool : List Nat) (p : Nat) (healthy : Bool) : List Nat :=
  if pool.length < MAX_POOL_SIZE ∧ healthy = true then p :: pool else pool

-- ═══════════════════════════════════════════════════════════════
-- Request handler (`handleRequest` in daemon.js)
-- ═══════════════════════════════════════════════════════════════

/-- A JSON value found in the request's `query` field. -/
inductive Json
  | str (s : Str)
  | num (n : Int)
  | boolean (b : Bool)
  | null
deriving DecidableEq

/-- `Json.isStr` decides `typeof v === "string"`. -/
def Json.isStr : Json → Bool
  | .str _ => true
  | _ => false

/-- A parsed request object; `query = none` means the field is missing. -/
structure RequestData where
  query : Option Json
deriving DecidableEq

/-- `"__STOP__"` as code points. -/
def STOP_SENTINEL : Str := strCodes "__STOP__"

/-- `"__STATUS__"` as code points. -/
def STATUS_SENTINEL : Str := strCodes "__STATUS__"

/-- What `handleRequest` produces: a reply written back on the socket,
or a suspension while the search waits for an admission slot. -/
inductive HandlerResult
  | reply (r : Response)
  | suspended (wid : Nat)
deriving DecidableEq

/-- `handleRequest` from `src/daemon.js`: rearm the idle timer, reject a
missing/non-string `query` with `{"error": "Invalid request"}`, route
the two sentinels, and otherwise run `search`.  The request `data` is
`none` when the parsed JSON is falsy (`!data`). -/
def handleRequest (env : Env) (s : DaemonState) (data : Option RequestData)
    (wid : Nat) : HandlerResult × DaemonState × Ledger :=
  match data with
  | none =>
    (HandlerResult.reply invalidResponse, { s with idleArmed := true }, ⟨0, 0, 0, 0⟩)
  | some d =>
    match d.query with
    | some (Json.str q) =>
      if q = STOP_SENTINEL then
        (HandlerResult.reply stoppedResponse, { s with idleArmed := true }, ⟨0, 0, 0, 0⟩)
      else if q = STATUS_SENTINEL then
        (HandlerResult.reply ⟨none, none, none, none, none, some true⟩,
         { s with idleArmed := true }, ⟨0, 0, 0, 0⟩)
      else
        match searchStep env { s with idleArmed := true } q wid with
        | (SearchOutcome.response r, s', led) => (HandlerResult.reply r, s', led)
        | (SearchOutcome.queued w, s', led) => (HandlerResult.suspended w, s', led)
    | _ =>
      (HandlerResult.reply invalidResponse, { s with idleArmed := true }, ⟨0, 0, 0, 0⟩)

-- ═══════════════════════════════════════════════════════════════
-- Lifecycle (`shutdown`, `__STOP__`, signal handlers in daemon.js)
-- ═══════════════════════════════════════════════════════════════

/-- The lifecycle-relevant slice of the daemon process state. -/
structure LifeState where
  idleTimerArmed : Bool
  browserOpen : Bool
  serverOpen : Bool
  socketExists : Bool
  exited : Bool
deriving DecidableEq

/-- Observable lifecycle events in the order the daemon performs them. -/
inductive Event
  | writeResponse (r : Response)
  | closeBrowser
  | closeServer
  | unlinkSocket
  | exitProcess
deriving DecidableEq

/-- `shutdown` from `src/daemon.js`: clear the idle timer, close the
browser context if open, close the server if open, unlink the socket
(errors swallowed), exit.  Returns the final state and the events
emitted. -/
def shutdown (s : LifeState) : LifeState × List Event :=
  let s1 := { s with idleTimerArmed := false }
  let (s2, ev2) :=
    if s1.browserOpen then
      ({ s1 with browserOpen := false }, [Event.closeBrowser])
    else (s1, ([] : List Event))
  let (s3, ev3) :=
    if s2.serverOpen then
      ({ s2 with serverOpen := false }, [Event.closeServer])
    else (s2, ([] : List Event))
  let s4 := { s3 with socketExists := false }
  ({ s4 with exited := true }, ev2 ++ ev3 ++ [Event.unlinkSocket, Event.exitProcess])

/-- The `__STOP__` branch of `handleRequest` plus the server loop around
it: the handler rearms the idle timer, schedules `shutdown` with
`setImmediate`, and returns `{"stopped": true}`; the server writes that
response before the deferred `shutdown` runs. -/
def stopRequestTrace (s : LifeState) : LifeState × List Event :=
  let s1 := { s with idleTimerArmed := true }
  let (s2, evs) := shutdown s1
  (s2, Event.writeResponse stoppedResponse :: evs)

/-- `process.on('SIGINT', shutdown)`. -/
def sigintStep (s : LifeState) : LifeState × List Event := shutdown s

/-- `process.on('SIGTERM', shutdown)`. -/
def sigtermStep (s : LifeState) : LifeState × List Event := shutdown s

-- ═══════════════════════════════════════════════════════════════
-- Browser initialization (`initContext` in daemon.js)
-- ═══════════════════════════════════════════════════════════════

/-- Errors `initContext` can reject with. -/
inductive InitErr
  | profileNotFound
  | profileLocked
  | launchFailed
deriving DecidableEq

deriving instance DecidableEq for Except

/-- The daemon state `initContext` reads and writes: the launched
context, and `browserLaunching`, holding the settled result of the
cached in-flight launch promise when one is stored. -/
structure InitState where
  browserContext : Option Nat
  browserLaunching : Option (Except InitErr Nat)
  nextCtx : Nat
deriving DecidableEq

/-- External facts an `initContext` call observes: whether the profile
directory exists on disk, whether the launch call succeeds, and whether
a launch failure is the `SingletonLock` flavor. -/
structure InitEnv where
  profileExists : Bool
  launchOk : Bool
  locked : Bool
deriving DecidableEq

/-- `initContext` from `src/daemon.js`: return the live context if set;
else return the cached launch promise if set; else start the async
body, which stores itself in `browserLaunching`.  The profile-existence
check throws before the `try`, so its rejection stays cached; only the
launch-call `catch` resets `browserLaunching` to null before
rethrowing. -/
def initContext (env : InitEnv) (s : InitState) : Except InitErr Nat × InitState :=
  match s.browserContext with
  | some ctx => (Except.ok ctx, s)
  | none =>
    match s.browserLaunching with
    | some r => (r, s)
    | none =>
      if env.profileExists = false then
        (Except.error InitErr.profileNotFound,
         { s with browserLaunching := some (Except.error InitErr.profileNotFound) })
      else if env.launchOk then
        (Except.ok s.nextCtx,
         { s with browserContext := some s.nextCtx,
                  browserLaunching := some (Except.ok s.nextCtx),
                  nextCtx := s.nextCtx + 1 })
      else
        (Except.error (if env.locked then InitErr.profileLocked else InitErr.launchFailed),
         { s with browserLaunching := none })

-- ═══════════════════════════════════════════════════════════════
-- Theorems
-- ═══════════════════════════════════════════════════════════════

/-- Closed form of `runAcquires`: the first `MAX_CONCURRENT` callers are
admitted immediately, the rest are queued in arrival order. -/
theorem runAcquires_eq (n : Nat) :
    runAcquires n =
      (⟨min n MAX_CONCURRENT, List.range' MAX_CONCURRENT (n - MAX_CONCURRENT)⟩,
       List.range (min n MAX_CONCURRENT)) := by
  induction n with
  | zero => rfl
  | succ n ih =>
    rw [runAcquires, ih]
    by_cases h : n < MAX_CONCURRENT
    · have h1 : min n MAX_CONCURRENT = n := Nat.min_eq_left (Nat.le_of_lt h)
      have h2 : min (n + 1) MAX_CONCURRENT = n + 1 := Nat.min_eq_left h
      have h4 : n - MAX_CONCURRENT = 0 := Nat.sub_eq_zero_of_le (Nat.le_of_lt h)
      have h5 : n + 1 - MAX_CONCURRENT = 0 := Nat.sub_eq_zero_of_le h
      simp [acquireSlot, h1, h2, h4, h5, h, List.range_succ]
    · have hge : MAX_CONCURRENT ≤ n := Nat.le_of_not_lt h
      have h1 : min n MAX_CONCURRENT = MAX_CONCURRENT := Nat.min_eq_right hge
      have h2 : min (n + 1) MAX_CONCURRENT = MAX_CONCURRENT :=
        Nat.min_eq_right (Nat.le_succ_of_le hge)
      have h6 : n + 1 - MAX_CONCURRENT = (n - MAX_CONCURRENT) + 1 := by omega
      have h7 : MAX_CONCURRENT + (n - MAX_CONCURRENT) = n := by omega
      simp [acquireSlot, h1, h2, h6, h, List.range'_concat, h7]

/-- Closed form of `runReleases` on a state whose queue is
`range' a m`: the first `k ≤ m` releases resume waiters `a, a+1, ...`
strictly in order, leaving the counter untouched. -/
theorem runReleases_eq (k : Nat) :
    ∀ a m, k ≤ m → ∀ t : Nat,
      runReleases k ⟨t, List.range' a m⟩ =
        (⟨t, List.range' (a + k) (m - k)⟩, List.range' a k) := by
  induction k with
  | zero => intro a m _ t; simp [runReleases]
  | succ k ih =>
    intro a m h t
    obtain ⟨m', rfl⟩ : ∃ m', m = m' + 1 := ⟨m - 1, by omega⟩
    rw [runReleases]
    rw [List.range'_succ]
    simp only [releaseSlot]
    rw [ih (a + 1) m' (by omega) t]
    have e1 : a + 1 + k = a + (k + 1) := by omega
    have e2 : m' - k = m' + 1 - (k + 1) := by omega
    rw [← e1, ← e2, List.range'_succ a k]
    rfl

/-- C1: the admission controller keeps `activeTabs ≤ MAX_CONCURRENT`;
`acquireSlot` suspends only when `activeTabs = MAX_CONCURRENT` and
otherwise returns immediately after incrementing; a suspended caller is
appended to the queue, never rejected; `releaseSlot` hands the permit
to the oldest queued waiter when the queue is non-empty (counter
unchanged), else decrements; and in the `MAX_CONCURRENT + N` scenario
exactly `MAX_CONCURRENT` callers are admitted immediately and the rest
are resumed strictly in arrival order as slots free. -/
theorem admission_controller_fifo_bounded :
    (∀ (s : Sem) (w : Nat), s.activeTabs ≤ MAX_CONCURRENT →
      (acquireSlot s w).1.activeTabs ≤ MAX_CONCURRENT ∧
      ((acquireSlot s w).2 = false ↔ s.activeTabs = MAX_CONCURRENT) ∧
      ((acquireSlot s w).2 = true →
        (acquireSlot s w).1 = ⟨s.activeTabs + 1, s.waitQueue⟩) ∧
      ((acquireSlot s w).2 = false →
        (acquireSlot s w).1 = ⟨s.activeTabs, s.waitQueue ++ [w]⟩)) ∧
    (∀ (s : Sem) (n : Nat) (rest : List Nat), s.waitQueue = n :: rest →
      releaseSlot s = (⟨s.activeTabs, rest⟩, some n)) ∧
    (∀ s : Sem, s.waitQueue = [] →
      releaseSlot s = (⟨s.activeTabs - 1, []⟩, none)) ∧
    (∀ s : Sem, s.activeTabs ≤ MAX_CONCURRENT →
      (releaseSlot s).1.activeTabs ≤ MAX_CONCURRENT) ∧
    (∀ n k : Nat, MAX_CONCURRENT ≤ n → k ≤ n - MAX_CONCURRENT →
      (runAcquires n).2 = List.range MAX_CONCURRENT ∧
      (runAcquires n).1.waitQueue = List.range' MAX_CONCURRENT (n - MAX_CONCURRENT) ∧
      (runReleases k (runAcquires n).1).2 = List.range' MAX_CONCURRENT k) := by
  refine ⟨?_, ?_, ?_, ?_, ?_⟩
  · intro s w hs
    unfold acquireSlot
    by_cases h : s.activeTabs < MAX_CONCURRENT
    · simp [h]
      omega
    · simp [h]
      omega
  · intro s n rest hq
    unfold releaseSlot
    rw [hq]
  · intro s hq
    unfold releaseSlot
    rw [hq]
  · intro s hs
    unfold releaseSlot
    cases hq : s.waitQueue <;> simp <;> omega
  · intro n k hn hk
    have hmin : min n MAX_CONCURRENT = MAX_CONCURRENT := Nat.min_eq_right hn
    rw [runAcquires_eq, hmin]
    refine ⟨rfl, rfl, ?_⟩
    rw [runReleases_eq k MAX_CONCURRENT (n - MAX_CONCURRENT) hk MAX_CONCURRENT]

/-- Witness for `admission_controller_fifo_bounded`: at the capacity
state `⟨3, []⟩` an acquire suspends; with 5 concurrent acquires from
scratch, callers 0–2 are admitted immediately and 2 releases resume
callers 3 then 4 in arrival order. -/
theorem admission_controller_fifo_bounded_witness :
    (acquireSlot ⟨3, []⟩ 7).2 = false ∧
    (acquireSlot ⟨2, []⟩ 7).1 = ⟨3, []⟩ ∧
    releaseSlot ⟨3, [5, 6]⟩ = (⟨3, [6]⟩, some 5) ∧
    (runAcquires 5).2 = [0, 1, 2] ∧
    (runReleases 2 (runAcquires 5).1).2 = [3, 4] := by
  have h := admission_controller_fifo_bounded
  refine ⟨?_, ?_, ?_, ?_, ?_⟩
  · exact ((h.1 ⟨3, []⟩ 7 (by decide)).2.1).mpr rfl
  · exact (h.1 ⟨2, []⟩ 7 (by decide)).2.2.1 (by decide)
  · exact h.2.1 ⟨3, [5, 6]⟩ 5 [6] rfl
  · have := (h.2.2.2.2 5 2 (by decide) (by decide)).1
    rw [this]; decide
  · have := (h.2.2.2.2 5 2 (by decide) (by decide)).2.2
    rw [this]; decide

-- ═══════════════════════════════════════════════════════════════
-- Cache lemmas (C2, C6, C7)
-- ═══════════════════════════════════════════════════════════════

/-- The keys of the cache in insertion order. -/
def keysOf (m : CacheMap) : List Str := m.map Prod.fst

/-- Insert queries `ks` one after the other into cache `m`, caching each
query under itself. -/
def putMany (ks : List Str) (m : CacheMap) : CacheMap :=
  ks.foldl (fun acc k => cachePutStep acc k k) m

theorem mapHas_iff_mem_keys (m : CacheMap) (k : Str) :
    mapHas m k = true ↔ k ∈ keysOf m := by
  simp only [mapHas, keysOf, List.any_eq_true, List.mem_map,
    decide_eq_true_eq]

theorem mapGet_none_of_not_has (m : CacheMap) (k : Str)
    (h : mapHas m k = false) : mapGet m k = none := by
  unfold mapGet
  have hfind : (m.find? fun p => p.1 = k) = none := by
    rw [List.find?_eq_none]
    intro p hp hpk
    rw [decide_eq_true_eq] at hpk
    have : mapHas m k = true := by
      rw [mapHas_iff_mem_keys]
      exact hpk ▸ List.mem_map_of_mem Prod.fst hp
    rw [h] at this
    exact Bool.false_ne_true this
  rw [hfind]
  rfl

theorem mapSet_of_not_has (m : CacheMap) (k v : Str)
    (h : mapHas m k = false) : mapSet m k v = m ++ [(k, v)] := by
  unfold mapSet
  rw [h]
  rfl

theorem mapHas_mapDelete_self (m : CacheMap) (k : Str) :
    mapHas (mapDelete m k) k = false := by
  unfold mapHas mapDelete
  rw [List.any_eq_false]
  intro p hp
  have := List.of_mem_filter hp
  simp only [decide_eq_true_eq] at this ⊢
  exact fun hk => this hk

theorem mapDelete_cons_self (e : Str × Str) (t : CacheMap)
    (hn : e.1 ∉ keysOf t) : mapDelete (e :: t) e.1 = t := by
  unfold mapDelete
  rw [List.filter_cons]
  have he : (decide ¬(e.1 = e.1)) = false := by simp
  rw [he]
  simp only [Bool.false_eq_true, if_false]
  apply List.filter_eq_self.mpr
  intro p hp
  simp only [decide_eq_true_eq]
  intro hk
  exact hn (hk ▸ List.mem_map_of_mem Prod.fst hp)

theorem length_mapDelete_lt (m : CacheMap) (k : Str)
    (h : mapHas m k = true) : (mapDelete m k).length < m.length := by
  induction m with
  | nil => simp [mapHas] at h
  | cons e t ih =>
    by_cases he : e.1 = k
    · unfold mapDelete
      rw [List.filter_cons]
      have : (decide ¬(e.1 = k)) = false := by simp [he]
      rw [this]
      simp only [Bool.false_eq_true, if_false]
      exact Nat.lt_succ_of_le (List.length_filter_le _ t)
    · have ht : mapHas t k = true := by
        unfold mapHas at h ⊢
        rw [List.any_cons] at h
        simpa [he] using h
      unfold mapDelete
      rw [List.filter_cons]
      have : (decide ¬(e.1 = k)) = true := by simp [he]
      rw [this]
      simp only [if_true, List.length_cons]
      exact Nat.succ_lt_succ (ih ht)

theorem cacheGetStep_hit (m : CacheMap) (k v : Str)
    (h : mapGet m k = some v) :
    cacheGetStep m k = (some v, mapDelete m k ++ [(k, v)]) := by
  simp only [cacheGetStep, h]
  rw [mapSet_of_not_has _ _ _ (mapHas_mapDelete_self m k)]

theorem cacheGetStep_miss (m : CacheMap) (k : Str)
    (h : mapHas m k = false) : cacheGetStep m k = (none, m) := by
  unfold cacheGetStep
  rw [mapGet_none_of_not_has m k h]

theorem mapGet_isSome_of_has (m : CacheMap) (k : Str)
    (h : mapHas m k = true) : ∃ v, mapGet m k = some v := by
  have hfind : (m.find? fun p => p.1 = k).isSome := by
    rw [List.find?_isSome]
    unfold mapHas at h
    rw [List.any_eq_true] at h
    exact h
  obtain ⟨q, hq⟩ := Option.isSome_iff_exists.mp hfind
  refine ⟨q.2, ?_⟩
  unfold mapGet
  rw [hq]
  rfl

theorem mapHas_head (e : Str × Str) (t : CacheMap) :
    mapHas (e :: t) e.1 = true := by
  unfold mapHas
  rw [List.any_cons]
  simp

theorem cachePutStep_fresh_below (m : CacheMap) (k v : Str)
    (h : mapHas m k = false) (hlen : m.length < CACHE_MAX) :
    cachePutStep m k v = m ++ [(k, v)] := by
  unfold cachePutStep
  rw [mapSet_of_not_has m k v h]
  rw [if_neg]
  rw [List.length_append, List.length_singleton]
  omega

theorem cachePutStep_fresh_at_cap (m : CacheMap) (k v : Str)
    (hnd : (keysOf m).Nodup) (h : mapHas m k = false)
    (hlen : m.length = CACHE_MAX) :
    cachePutStep m k v = m.tail ++ [(k, v)] := by
  cases m with
  | nil =>
    rw [List.length_nil] at hlen
    exact absurd hlen.symm (by decide)
  | cons e t =>
    unfold cachePutStep
    rw [mapSet_of_not_has _ _ _ h]
    split
    · show mapDelete ((e :: t) ++ [(k, v)]) e.1 = (e :: t).tail ++ [(k, v)]
      rw [List.cons_append, List.tail_cons]
      apply mapDelete_cons_self
      intro hmem
      rw [keysOf, List.map_append] at hmem
      rcases List.mem_append.mp hmem with hl | hr
      · rw [keysOf, List.map_cons] at hnd
        exact (List.nodup_cons.mp hnd).1 hl
      · simp only [List.map_cons, List.map_nil, List.mem_singleton] at hr
        rw [Bool.eq_false_iff] at h
        apply h
        rw [mapHas_iff_mem_keys, ← hr]
        exact List.mem_map_of_mem Prod.fst (List.mem_cons_self e t)
    · rename_i hno
      rw [List.length_append, List.length_singleton, List.length_cons] at hno
      rw [List.length_cons] at hlen
      omega

theorem cacheGetStep_length (m : CacheMap) (k : Str)
    (h : m.length ≤ CACHE_MAX) : (cacheGetStep m k).2.length ≤ CACHE_MAX := by
  cases hh : mapHas m k
  · rw [cacheGetStep_miss m k hh]
    exact h
  · obtain ⟨v, hv⟩ := mapGet_isSome_of_has m k hh
    rw [cacheGetStep_hit m k v hv]
    simp only [List.length_append, List.length_singleton]
    have := length_mapDelete_lt m k hh
    omega

theorem cachePutStep_length (m : CacheMap) (k v : Str)
    (h : m.length ≤ CACHE_MAX) : (cachePutStep m k v).length ≤ CACHE_MAX := by
  cases hh : mapHas m k
  · unfold cachePutStep
    rw [mapSet_of_not_has m k v hh]
    split
    · obtain ⟨e, t, he⟩ : ∃ e t, m ++ [(k, v)] = e :: t := by
        cases m with
        | nil => exact ⟨(k, v), [], rfl⟩
        | cons e₀ t₀ => exact ⟨e₀, t₀ ++ [(k, v)], rfl⟩
      rw [he]
      show (mapDelete (e :: t) e.1).length ≤ CACHE_MAX
      have hlt := length_mapDelete_lt (e :: t) e.1 (mapHas_head e t)
      have hlen : (e :: t).length = m.length + 1 := by
        rw [← he, List.length_append, List.length_singleton]
      omega
    · rename_i hno
      rw [List.length_append, List.length_singleton] at hno ⊢
      omega
  · unfold cachePutStep
    have hset : mapSet m k v = m.map fun p => if p.1 = k then (k, v) else p := by
      unfold mapSet
      rw [hh]
      rw [if_pos rfl]
    rw [hset]
    split
    · rename_i hgt
      rw [List.length_map] at hgt
      omega
    · rw [List.length_map]
      exact h

theorem keysOf_pairMap (ks : List Str) : keysOf (ks.map fun k => (k, k)) = ks := by
  induction ks with
  | nil => rfl
  | cons a t ih =>
    show a :: keysOf (t.map fun k => (k, k)) = a :: t
    rw [ih]

theorem putMany_below (ks : List Str) :
    ks.Nodup → ks.length ≤ CACHE_MAX →
    putMany ks [] = ks.map (fun k => (k, k)) := by
  induction ks using List.reverseRecOn with
  | nil => intro _ _; rfl
  | append_singleton ks k ih =>
    intro hnd hlen
    have hparts := List.nodup_append.mp hnd
    have hk : k ∉ ks := by
      intro hmem
      exact hparts.2.2 hmem (List.mem_singleton_self k)
    have hlen' : ks.length < CACHE_MAX := by
      rw [List.length_append, List.length_singleton] at hlen
      omega
    unfold putMany
    rw [List.foldl_append]
    have ihh := ih hparts.1 (Nat.le_of_lt hlen')
    unfold putMany at ihh
    rw [ihh]
    simp only [List.foldl_cons, List.foldl_nil]
    have hhas : mapHas (ks.map fun k => (k, k)) k = false := by
      rw [Bool.eq_false_iff]
      intro hc
      rw [mapHas_iff_mem_keys, keysOf_pairMap] at hc
      exact hk hc
    rw [cachePutStep_fresh_below _ _ _ hhas (by rw [List.length_map]; exact hlen')]
    rw [List.map_append]
    rfl

theorem putMany_evicts_head (k0 klast : Str) (t : List Str)
    (hnd : (k0 :: (t ++ [klast])).Nodup)
    (hlen : (k0 :: (t ++ [klast])).length = CACHE_MAX + 1) :
    putMany (k0 :: (t ++ [klast])) [] = (t ++ [klast]).map (fun k => (k, k)) ∧
    mapHas (putMany (k0 :: (t ++ [klast])) []) k0 = false := by
  have hshape : k0 :: (t ++ [klast]) = (k0 :: t) ++ [klast] := by
    rw [List.cons_append]
  have hnd' : ((k0 :: t) ++ [klast]).Nodup := hshape ▸ hnd
  have hparts := List.nodup_append.mp hnd'
  have hklast : klast ∉ k0 :: t := by
    intro hmem
    exact hparts.2.2 hmem (List.mem_singleton_self klast)
  have hlen' : (k0 :: t).length = CACHE_MAX := by
    rw [hshape, List.length_append, List.length_singleton] at hlen
    omega
  have hfill := putMany_below (k0 :: t) hparts.1 (Nat.le_of_eq hlen')
  have hstep : putMany ((k0 :: t) ++ [klast]) [] =
      cachePutStep (putMany (k0 :: t) []) klast klast := by
    unfold putMany
    rw [List.foldl_append]
    rfl
  have hhas : mapHas ((k0 :: t).map fun k => (k, k)) klast = false := by
    rw [Bool.eq_false_iff]
    intro hc
    rw [mapHas_iff_mem_keys, keysOf_pairMap] at hc
    exact hklast hc
  have hkeysnd : (keysOf ((k0 :: t).map fun k => (k, k))).Nodup := by
    rw [keysOf_pairMap]
    exact hparts.1
  have hres : putMany (k0 :: (t ++ [klast])) [] =
      (t.map fun k => (k, k)) ++ [(klast, klast)] := by
    rw [hshape, hstep, hfill]
    rw [cachePutStep_fresh_at_cap _ _ _ hkeysnd hhas
      (by rw [List.length_map]; exact hlen')]
    rfl
  constructor
  · rw [hres, List.map_append]
    rfl
  · rw [hres, Bool.eq_false_iff]
    intro hc
    rw [mapHas_iff_mem_keys] at hc
    rw [keysOf, List.map_append, List.map_map] at hc
    rcases List.mem_append.mp hc with hl | hr
    · have hk0t : k0 ∉ t := fun hmem =>
        (List.nodup_cons.mp (List.nodup_append.mp hnd').1).1 hmem
      apply hk0t
      simpa using hl
    · simp only [List.map_cons, List.map_nil, List.mem_singleton] at hr
      apply hklast
      rw [← hr]
      exact List.mem_cons_self _ _

/-- C2: the result cache never exceeds `CACHE_MAX` entries after any get
or put; a hit promotes the entry to the most-recently-used end; a fresh
put at the cap evicts exactly the least-recently-used (front) entry;
and inserting `CACHE_MAX + 1` distinct queries into an empty cache
evicts precisely the first (least-recently-accessed) one. -/
theorem cache_lru_bounded :
    (∀ (m : CacheMap) (k : Str), m.length ≤ CACHE_MAX →
      (cacheGetStep m k).2.length ≤ CACHE_MAX) ∧
    (∀ (m : CacheMap) (k v : Str), m.length ≤ CACHE_MAX →
      (cachePutStep m k v).length ≤ CACHE_MAX) ∧
    (∀ (m : CacheMap) (k v : Str), mapGet m k = some v →
      cacheGetStep m k = (some v, mapDelete m k ++ [(k, v)])) ∧
    (∀ (m : CacheMap) (k v : Str), (keysOf m).Nodup →
      mapHas m k = false → m.length = CACHE_MAX →
      cachePutStep m k v = m.tail ++ [(k, v)]) ∧
    (∀ (k0 klast : Str) (t : List Str),
      (k0 :: (t ++ [klast])).Nodup →
      (k0 :: (t ++ [klast])).length = CACHE_MAX + 1 →
      putMany (k0 :: (t ++ [klast])) [] = (t ++ [klast]).map (fun k => (k, k)) ∧
      mapHas (putMany (k0 :: (t ++ [klast])) []) k0 = false) :=
  ⟨cacheGetStep_length, cachePutStep_length, cacheGetStep_hit,
   cachePutStep_fresh_at_cap, putMany_evicts_head⟩

/-- Witness for `cache_lru_bounded`: a concrete hit promotion and the
concrete 51-key insertion scenario (keys `[0], [1], …, [50]`), where
key `[0]` is evicted. -/
theorem cache_lru_bounded_witness :
    (cacheGetStep [([1], [7]), ([2], [8])] [1]).2.length ≤ CACHE_MAX ∧
    cacheGetStep [([1], [7]), ([2], [8])] [1] =
      (some [7], [([2], [8]), ([1], [7])]) ∧
    (putMany (((List.range 51).map fun n => ([n] : Str))) [] =
      (((List.range 51).map fun n => ([n] : Str)).drop 1).map (fun k => (k, k)) ∧
     mapHas (putMany (((List.range 51).map fun n => ([n] : Str))) []) [0] = false) := by
  refine ⟨?_, ?_, ?_⟩
  · exact cache_lru_bounded.1 [([1], [7]), ([2], [8])] [1] (by decide)
  · have := cache_lru_bounded.2.2.1 [([1], [7]), ([2], [8])] [1] [7] (by decide)
    rw [this]
    decide
  · have hshape : ((List.range 51).map fun n => ([n] : Str)) =
        [0] :: ((((List.range' 1 49).map fun n => ([n] : Str))) ++ [[50]]) := by
      decide
    rw [hshape]
    have h := cache_lru_bounded.2.2.2.2 [0] [50]
      (((List.range' 1 49).map fun n => ([n] : Str)))
      (by decide) (by decide)
    exact ⟨by rw [h.1]; decide, h.2⟩

-- ═══════════════════════════════════════════════════════════════
-- Key-normalization lemmas (C7)
-- ═══════════════════════════════════════════════════════════════

theorem isWs_jsToLower (c : Nat) : isWs (jsToLower c) = isWs c := by
  unfold jsToLower
  split
  · rename_i h
    have h1 : isWs (c + 32) = false := by
      unfold isWs
      apply decide_eq_false
      omega
    have h2 : isWs c = false := by
      unfold isWs
      apply decide_eq_false
      omega
    rw [h1, h2]
  · rfl

theorem allWs_map_jsToLower (l : Str) (h : allWs l) : allWs (l.map jsToLower) := by
  intro c hc
  rw [List.mem_map] at hc
  obtain ⟨a, ha, rfl⟩ := hc
  rw [isWs_jsToLower]
  exact h a ha

theorem allWs_reverse (l : Str) (h : allWs l) : allWs l.reverse := by
  intro c hc
  exact h c (List.mem_reverse.mp hc)

theorem dropWhile_allWs_append (l x : Str) (h : allWs l) :
    (l ++ x).dropWhile isWs = x.dropWhile isWs := by
  induction l with
  | nil => rfl
  | cons a t ih =>
    rw [List.cons_append, List.dropWhile_cons_of_pos (h a (List.mem_cons_self a t))]
    exact ih (fun c hc => h c (List.mem_cons_of_mem a hc))

theorem dropWhile_allWs_nil (l : Str) (h : allWs l) :
    l.dropWhile isWs = [] := by
  have := dropWhile_allWs_append l [] h
  rw [List.append_nil] at this
  rw [this]
  rfl

theorem dropWhile_map_jsToLower (l : Str) :
    (l.map jsToLower).dropWhile isWs = (l.dropWhile isWs).map jsToLower := by
  induction l with
  | nil => rfl
  | cons a t ih =>
    rw [List.map_cons]
    cases hws : isWs a
    · have h1 : ¬ isWs (jsToLower a) = true := by
        rw [isWs_jsToLower, hws]
        exact Bool.false_ne_true
      have h2 : ¬ isWs a = true := by
        rw [hws]
        exact Bool.false_ne_true
      rw [List.dropWhile_cons_of_neg h1, List.dropWhile_cons_of_neg h2, List.map_cons]
    · have h1 : isWs (jsToLower a) = true := by
        rw [isWs_jsToLower]
        exact hws
      rw [List.dropWhile_cons_of_pos h1, List.dropWhile_cons_of_pos hws]
      exact ih

theorem trimList_map_jsToLower (l : Str) :
    trimList (l.map jsToLower) = (trimList l).map jsToLower := by
  unfold trimList
  rw [dropWhile_map_jsToLower]
  rw [← List.map_reverse]
  rw [dropWhile_map_jsToLower]
  rw [← List.map_reverse]

theorem length_dropWhile_le (p : Nat → Bool) (l : Str) :
    (l.dropWhile p).length ≤ l.length :=
  List.Sublist.length_le (List.dropWhile_sublist p)

theorem trimmed_dropWhile (l : Str) (h : trimmed l) :
    l.dropWhile isWs = l ∧ l.reverse.dropWhile isWs = l.reverse := by
  have heq : trimList l = l := h
  have hlen1 : l.length ≤ (l.dropWhile isWs).length := by
    have h2 : (trimList l).length = l.length := by rw [heq]
    unfold trimList at h2
    rw [List.length_reverse] at h2
    have h3 := length_dropWhile_le isWs ((l.dropWhile isWs).reverse)
    rw [List.length_reverse] at h3
    omega
  have heq1 : l.dropWhile isWs = l :=
    (List.dropWhile_sublist isWs).eq_of_length
      (Nat.le_antisymm (length_dropWhile_le isWs l) hlen1)
  refine ⟨heq1, ?_⟩
  have h4 : (l.reverse.dropWhile isWs).reverse = l := by
    have h5 : ((l.dropWhile isWs).reverse.dropWhile isWs).reverse = l := heq
    rw [heq1] at h5
    exact h5
  have h6 := congrArg List.reverse h4
  rw [List.reverse_reverse] at h6
  exact h6

theorem trim_pad (padL core padR : Str) (hL : allWs padL) (hR : allWs padR)
    (hc : trimmed core) : trimList (padL ++ (core ++ padR)) = core := by
  obtain ⟨hd, hrd⟩ := trimmed_dropWhile core hc
  unfold trimList
  rw [dropWhile_allWs_append padL (core ++ padR) hL]
  cases core with
  | nil =>
    rw [List.nil_append]
    rw [dropWhile_allWs_nil padR hR]
    rfl
  | cons c core' =>
    have hcws : isWs c = false := by
      cases hcc : isWs c
      · rfl
      · exfalso
        rw [List.dropWhile_cons_of_pos hcc] at hd
        have h1 := length_dropWhile_le isWs core'
        have h2 := congrArg List.length hd
        rw [List.length_cons] at h2
        omega
    rw [List.cons_append,
      List.dropWhile_cons_of_neg (by rw [hcws]; exact Bool.false_ne_true),
      ← List.cons_append, List.reverse_append,
      dropWhile_allWs_append padR.reverse _ (allWs_reverse padR hR),
      hrd, List.reverse_reverse]

theorem cacheKey_pad (padL core padR : Str) (hL : allWs padL) (hR : allWs padR)
    (hc : trimmed core) :
    cacheKey (padL ++ (core ++ padR)) = core.map jsToLower := by
  unfold cacheKey
  rw [List.map_append, List.map_append]
  apply trim_pad
  · exact allWs_map_jsToLower padL hL
  · exact allWs_map_jsToLower padR hR
  · unfold trimmed
    rw [trimList_map_jsToLower, hc]

theorem cacheKey_trimmed (q : Str) (h : trimmed q) :
    cacheKey q = q.map jsToLower := by
  have heq : trimList q = q := h
  unfold cacheKey
  rw [trimList_map_jsToLower, heq]

/-- C7: over the code points where the embedded case conversion is
exactly JS's (below 256, or whitespace — `lowerFaithful`), queries that
differ only in letter case or in leading/trailing whitespace normalize
to the same cache key (so a result cached under one is a hit for the
other), while trimmed queries whose lowercase forms differ — as they do
when the queries differ in internal whitespace or punctuation, which
case conversion preserves — get distinct keys. -/
theorem cache_key_normalization :
    (∀ padL1 core1 padR1 padL2 core2 padR2 : Str,
      allWs padL1 → allWs padR1 → allWs padL2 → allWs padR2 →
      lowerFaithful core1 → lowerFaithful core2 →
      trimmed core1 → trimmed core2 →
      core1.map jsToLower = core2.map jsToLower →
      cacheKey (padL1 ++ (core1 ++ padR1)) = cacheKey (padL2 ++ (core2 ++ padR2)) ∧
      ∀ m : CacheMap,
        mapHas m (cacheKey (padL1 ++ (core1 ++ padR1))) =
          mapHas m (cacheKey (padL2 ++ (core2 ++ padR2)))) ∧
    (∀ q1 q2 : Str, lowerFaithful q1 → lowerFaithful q2 →
      trimmed q1 → trimmed q2 →
      q1.map jsToLower ≠ q2.map jsToLower →
      cacheKey q1 ≠ cacheKey q2) := by
  constructor
  · intro padL1 core1 padR1 padL2 core2 padR2 hL1 hR1 hL2 hR2 _ _ hc1 hc2 hlow
    have hk : cacheKey (padL1 ++ (core1 ++ padR1)) = cacheKey (padL2 ++ (core2 ++ padR2)) := by
      rw [cacheKey_pad padL1 core1 padR1 hL1 hR1 hc1,
        cacheKey_pad padL2 core2 padR2 hL2 hR2 hc2]
      exact hlow
    exact ⟨hk, fun m => by rw [hk]⟩
  · intro q1 q2 _ _ h1 h2 hne hcontra
    apply hne
    rw [cacheKey_trimmed q1 h1, cacheKey_trimmed q2 h2] at hcontra
    exact hcontra

/-- Witness for `cache_key_normalization`: `" CAFÉ \t"` (NBSP
padding, Latin-1 uppercase É) and `"café"` share one cache key, while
`"foo bar"` and `"foo  bar"` (internal whitespace difference) get
distinct keys. -/
theorem cache_key_normalization_witness :
    cacheKey ([160] ++ (strCodes "CAFÉ" ++ [32, 9])) =
      cacheKey ([] ++ (strCodes "café" ++ [])) ∧
    cacheKey (strCodes "foo bar") ≠ cacheKey (strCodes "foo  bar") := by
  constructor
  · exact (cache_key_normalization.1 [160] (strCodes "CAFÉ") [32, 9] [] (strCodes "café") []
      (by decide) (by decide) (by decide) (by decide) (by decide) (by decide)
      (by decide) (by decide) (by decide)).1
  · exact cache_key_normalization.2 (strCodes "foo bar") (strCodes "foo  bar")
      (by decide) (by decide) (by decide) (by decide) (by decide)

-- ═══════════════════════════════════════════════════════════════
-- Retrieval-pipeline lemmas (C3, C4, C5, C6)
-- ═══════════════════════════════════════════════════════════════

theorem getPage_sem (env : Env) (s : DaemonState) (p : Nat) (t : DaemonState)
    (h : getPage env s = Except.ok (p, t)) :
    t.activeTabs = s.activeTabs ∧ t.waitQueue = s.waitQueue := by
  unfold getPage at h
  split at h
  · injection h with h2
    rw [Prod.mk.injEq] at h2
    rw [← h2.2]
    exact ⟨rfl, rfl⟩
  · split at h
    · split at h
      · injection h with h2
        rw [Prod.mk.injEq] at h2
        rw [← h2.2]
        exact ⟨rfl, rfl⟩
      · injection h with h2
        rw [Prod.mk.injEq] at h2
        rw [← h2.2]
        exact ⟨rfl, rfl⟩
    · exact absurd h (by simp)

theorem searchBody_sem (env : Env) (s : DaemonState) (key : Str) :
    (searchBody env s key).2.2.activeTabs = s.activeTabs ∧
    (searchBody env s key).2.2.waitQueue = s.waitQueue := by
  unfold searchBody
  split
  · exact ⟨rfl, rfl⟩
  · rename_i page s1 heq
    have hg := getPage_sem env s page s1 heq
    constructor <;> (repeat' split) <;> (first | exact hg.1 | exact hg.2)

theorem finallyStep_pageRel (s1 : DaemonState) (page : Option Nat) :
    (finallyStep s1 page).2.2 = (match page with | some _ => 1 | none => 0) := by
  cases page with
  | none =>
    obtain ⟨m, r, hr⟩ : ∃ m r, releaseSlot s1.sem = (m, r) := ⟨_, _, rfl⟩
    simp only [finallyStep, hr]
  | some p =>
    obtain ⟨m, r, hr⟩ : ∃ m r,
        releaseSlot { s1 with pagePool := poolReleasePage s1.pagePool p }.sem = (m, r) :=
      ⟨_, _, rfl⟩
    simp only [finallyStep, hr]

theorem finallyStep_queue_empty (s1 : DaemonState) (page : Option Nat)
    (h : s1.waitQueue = []) :
    (finallyStep s1 page).1.activeTabs = s1.activeTabs - 1 ∧
    (finallyStep s1 page).1.waitQueue = [] := by
  cases page with
  | none =>
    simp only [finallyStep, releaseSlot, DaemonState.sem, withSem, h]
    constructor <;> trivial
  | some p =>
    simp only [finallyStep, releaseSlot, DaemonState.sem, withSem, h]
    constructor <;> trivial

theorem finallyStep_queue_cons (s1 : DaemonState) (page : Option Nat)
    (w : Nat) (rest : List Nat) (h : s1.waitQueue = w :: rest) :
    (finallyStep s1 page).1.activeTabs = s1.activeTabs ∧
    (finallyStep s1 page).1.waitQueue = rest := by
  cases page with
  | none =>
    simp only [finallyStep, releaseSlot, DaemonState.sem, withSem, h]
    constructor <;> trivial
  | some p =>
    simp only [finallyStep, releaseSlot, DaemonState.sem, withSem, h]
    constructor <;> trivial

/-- C4: on a cache miss, whatever the external outcome (construction
failure, navigation failure, challenge, parse failure, or success), one
`search` call acquires the slot once, releases it exactly once, and
releases the checked-out page exactly once (not at all when
construction itself failed and no page was checked out); afterwards the
admission accounting equals its pre-retrieval value, or one queued
waiter has been handed the slot. -/
theorem retrieval_releases_exactly_once (env : Env) (s : DaemonState)
    (q : Str) (wid : Nat)
    (hact : s.activeTabs < MAX_CONCURRENT)
    (hmiss : mapHas s.cache (cacheKey q) = false) :
    (searchStep env s q wid).2.2.slotAcquires = 1 ∧
    (searchStep env s q wid).2.2.slotReleases = 1 ∧
    (searchStep env s q wid).2.2.pageReleases =
      (searchStep env s q wid).2.2.pagesCheckedOut ∧
    (((searchStep env s q wid).2.1.activeTabs = s.activeTabs ∧
      (searchStep env s q wid).2.1.waitQueue = s.waitQueue) ∨
     (∃ w rest, s.waitQueue = w :: rest ∧
       (searchStep env s q wid).2.1.activeTabs = s.activeTabs + 1 ∧
       (searchStep env s q wid).2.1.waitQueue = rest)) := by
  have hkey := cacheGetStep_miss s.cache (cacheKey q) hmiss
  have hacq : acquireSlot s.sem wid = (⟨s.activeTabs + 1, s.waitQueue⟩, true) := by
    unfold acquireSlot DaemonState.sem
    rw [if_pos hact]
  obtain ⟨outcome, page, s1, heq⟩ :
      ∃ o p t, searchBody env (withSem s ⟨s.activeTabs + 1, s.waitQueue⟩) (cacheKey q) =
        (o, p, t) :=
    ⟨_, _, _, rfl⟩
  obtain ⟨s2, resumed, pageRel, hfin⟩ :
      ∃ a b c, finallyStep s1 page = (a, b, c) := ⟨_, _, _, rfl⟩
  have hs1act : s1.activeTabs = s.activeTabs + 1 := by
    have hs := searchBody_sem env (withSem s ⟨s.activeTabs + 1, s.waitQueue⟩) (cacheKey q)
    rw [heq] at hs
    exact hs.1
  have hs1q : s1.waitQueue = s.waitQueue := by
    have hs := searchBody_sem env (withSem s ⟨s.activeTabs + 1, s.waitQueue⟩) (cacheKey q)
    rw [heq] at hs
    exact hs.2
  unfold searchStep
  simp only [hkey, hacq, heq, hfin]
  refine ⟨trivial, trivial, ?_, ?_⟩
  · have h1 := finallyStep_pageRel s1 page
    rw [hfin] at h1
    exact h1
  · cases hq : s.waitQueue with
    | nil =>
      left
      have h2 := finallyStep_queue_empty s1 page (by rw [hs1q, hq])
      rw [hfin] at h2
      have h2a : s2.activeTabs = s1.activeTabs - 1 := h2.1
      have h2b : s2.waitQueue = [] := h2.2
      constructor
      · rw [h2a, hs1act]
        omega
      · rw [h2b]
    | cons w rest =>
      right
      refine ⟨w, rest, rfl, ?_, ?_⟩
      · have h2 := finallyStep_queue_cons s1 page w rest (by rw [hs1q, hq])
        rw [hfin] at h2
        have h2a : s2.activeTabs = s1.activeTabs := h2.1
        rw [h2a, hs1act]
      · have h2 := finallyStep_queue_cons s1 page w rest (by rw [hs1q, hq])
        rw [hfin] at h2
        have h2b : s2.waitQueue = rest := h2.2
        rw [h2b]

/-- Witness for `retrieval_releases_exactly_once` at a successful
retrieval from a fresh state. -/
theorem retrieval_releases_exactly_once_witness :
    (searchStep ⟨true, true, false, some [104], 5⟩
      ⟨none, [], 0, [], [], 0, 0, false⟩ [97] 0).2.2.slotReleases = 1 ∧
    (searchStep ⟨true, true, false, some [104], 5⟩
      ⟨none, [], 0, [], [], 0, 0, false⟩ [97] 0).2.2.pageReleases =
      (searchStep ⟨true, true, false, some [104], 5⟩
        ⟨none, [], 0, [], [], 0, 0, false⟩ [97] 0).2.2.pagesCheckedOut :=
  ⟨(retrieval_releases_exactly_once _ _ _ _ (by decide) (by decide)).2.1,
   (retrieval_releases_exactly_once _ _ _ _ (by decide) (by decide)).2.2.1⟩

theorem finallyStep_frame (s1 : DaemonState) (page : Option Nat) :
    (finallyStep s1 page).1.cache = s1.cache ∧
    (finallyStep s1 page).1.browserContext = s1.browserContext := by
  cases page with
  | none =>
    obtain ⟨m, r, hr⟩ : ∃ m r, releaseSlot s1.sem = (m, r) := ⟨_, _, rfl⟩
    simp only [finallyStep, hr, withSem]
    constructor <;> trivial
  | some p =>
    obtain ⟨m, r, hr⟩ : ∃ m r,
        releaseSlot { s1 with pagePool := poolReleasePage s1.pagePool p }.sem = (m, r) :=
      ⟨_, _, rfl⟩
    simp only [finallyStep, hr, withSem]
    constructor <;> trivial

theorem getPage_ok (env : Env) (s : DaemonState) (hco : env.constructOk = true) :
    ∃ p t, getPage env s = Except.ok (p, t) ∧
      t.activeTabs = s.activeTabs ∧ t.waitQueue = s.waitQueue ∧
      t.cache = s.cache ∧
      (∀ b, s.browserContext = some b → t.browserContext = some b) := by
  unfold getPage
  cases hp : s.pagePool with
  | cons p rest =>
    exact ⟨p, _, rfl, rfl, rfl, rfl, fun b hb => hb⟩
  | nil =>
    rw [hco]
    rw [if_pos rfl]
    cases hb : s.browserContext with
    | some b =>
      refine ⟨s.nextPageId, _, rfl, rfl, rfl, rfl, fun b' hb' => ?_⟩
      rw [← hb']
    | none =>
      refine ⟨s.nextPageId, _, rfl, rfl, rfl, rfl, fun b' hb' => ?_⟩
      cases hb'

theorem searchBody_err_path (env : Env) (s : DaemonState) (key : Str)
    (hco : env.constructOk = true) (hnav : env.navOk = true)
    (e : ErrMsg)
    (hcase : (env.captcha = true ∧ e = ErrMsg.captchaDetected) ∨
      (env.captcha = false ∧ (env.parsed = none ∨ env.parsed = some []) ∧
        e = ErrMsg.parseFailed)) :
    ∃ p t, searchBody env s key = (Except.error e, some p, t) ∧
      t.activeTabs = s.activeTabs ∧ t.waitQueue = s.waitQueue ∧
      t.cache = s.cache ∧
      (∀ b, s.browserContext = some b → t.browserContext = some b) := by
  obtain ⟨p, t, hgp, h1, h2, h3, h4⟩ := getPage_ok env s hco
  refine ⟨p, t, ?_, h1, h2, h3, h4⟩
  rcases hcase with ⟨hcap, rfl⟩ | ⟨hcap, hparse, rfl⟩
  · simp [searchBody, hgp, hnav, hcap]
  · rcases hparse with hp | hp <;> simp [searchBody, hgp, hnav, hcap, hp]

theorem searchStep_err (env : Env) (s : DaemonState) (q : Str) (wid : Nat)
    (hact : s.activeTabs < MAX_CONCURRENT)
    (hmiss : mapHas s.cache (cacheKey q) = false)
    (hco : env.constructOk = true) (hnav : env.navOk = true)
    (e : ErrMsg)
    (hcase : (env.captcha = true ∧ e = ErrMsg.captchaDetected) ∨
      (env.captcha = false ∧ (env.parsed = none ∨ env.parsed = some []) ∧
        e = ErrMsg.parseFailed)) :
    (searchStep env s q wid).1 =
      SearchOutcome.response ⟨none, none, some env.elapsed, some e, none, none⟩ ∧
    (searchStep env s q wid).2.1.cache = s.cache ∧
    (∀ b, s.browserContext = some b →
      (searchStep env s q wid).2.1.browserContext = some b) ∧
    (s.waitQueue = [] →
      (searchStep env s q wid).2.1.activeTabs = s.activeTabs ∧
      (searchStep env s q wid).2.1.waitQueue = []) := by
  have hkey := cacheGetStep_miss s.cache (cacheKey q) hmiss
  have hacq : acquireSlot s.sem wid = (⟨s.activeTabs + 1, s.waitQueue⟩, true) := by
    unfold acquireSlot DaemonState.sem
    rw [if_pos hact]
  obtain ⟨p, t, hbody, h1, h2, h3, h4⟩ :=
    searchBody_err_path env (withSem s ⟨s.activeTabs + 1, s.waitQueue⟩) (cacheKey q)
      hco hnav e hcase
  obtain ⟨s2, resumed, pageRel, hfin⟩ :
      ∃ a b c, finallyStep t (some p) = (a, b, c) := ⟨_, _, _, rfl⟩
  have htact : t.activeTabs = s.activeTabs + 1 := h1
  have htq : t.waitQueue = s.waitQueue := h2
  have htc : t.cache = s.cache := h3
  have hframe := finallyStep_frame t (some p)
  rw [hfin] at hframe
  have hfc : s2.cache = t.cache := hframe.1
  have hfb : s2.browserContext = t.browserContext := hframe.2
  unfold searchStep
  simp only [hkey, hacq, hbody, hfin]
  refine ⟨trivial, ?_, ?_, ?_⟩
  · rw [hfc, htc]
  · intro b hb
    rw [hfb]
    exact h4 b hb
  · intro hq
    have hemp := finallyStep_queue_empty t (some p) (by rw [htq, hq])
    rw [hfin] at hemp
    have ha : s2.activeTabs = t.activeTabs - 1 := hemp.1
    have hw : s2.waitQueue = [] := hemp.2
    constructor
    · rw [ha, htact]
      omega
    · exact hw

/-- C6: when the parser yields nothing (`null` or the empty string) on a
cache miss, `search` returns the parse-failure error response and the
cache is left exactly as it was — the failed result is never
inserted. -/
theorem empty_extraction_never_cached (env : Env) (s : DaemonState)
    (q : Str) (wid : Nat)
    (hact : s.activeTabs < MAX_CONCURRENT)
    (hmiss : mapHas s.cache (cacheKey q) = false)
    (hco : env.constructOk = true) (hnav : env.navOk = true)
    (hcap : env.captcha = false)
    (hparse : env.parsed = none ∨ env.parsed = some []) :
    (searchStep env s q wid).1 =
      SearchOutcome.response ⟨none, none, some env.elapsed,
        some ErrMsg.parseFailed, none, none⟩ ∧
    (searchStep env s q wid).2.1.cache = s.cache := by
  have h := searchStep_err env s q wid hact hmiss hco hnav ErrMsg.parseFailed
    (Or.inr ⟨hcap, hparse, rfl⟩)
  exact ⟨h.1, h.2.1⟩

/-- Witness for `empty_extraction_never_cached`: a parse failure (`null`
markdown) on a one-entry cache leaves that cache intact. -/
theorem empty_extraction_never_cached_witness :
    (searchStep ⟨true, true, false, none, 3⟩
      ⟨some 0, [([98], [99])], 0, [], [], 0, 0, false⟩ [97] 0).1 =
      SearchOutcome.response ⟨none, none, some 3, some ErrMsg.parseFailed,
        none, none⟩ ∧
    (searchStep ⟨true, true, false, none, 3⟩
      ⟨some 0, [([98], [99])], 0, [], [], 0, 0, false⟩ [97] 0).2.1.cache =
      [([98], [99])] :=
  empty_extraction_never_cached _ _ _ _ (by decide) (by decide) (by decide)
    (by decide) (by decide) (Or.inl (by decide))

-- ═══════════════════════════════════════════════════════════════
-- Challenge handling (C3)
-- ═══════════════════════════════════════════════════════════════

/-- Counterexample to C3: from a live browser handle `some 0`, five
consecutive challenge detections all return the same plain CAPTCHA
error — never a distinct retry-later/cooldown error — and the browser
handle is never torn down or relaunched (no consecutive-challenge
counter exists in the daemon state at all), so no configured threshold
`≤ 4` triggers the claimed escalation. -/
theorem challenge_counterexample :
    (iterSearch ⟨true, true, true, none, 0⟩ [97] 0 5
      ⟨some 0, [], 0, [], [], 0, 0, false⟩).browserContext = some 0 ∧
    (searchStep ⟨true, true, true, none, 0⟩
      ⟨some 0, [], 0, [], [], 0, 0, false⟩ [97] 0).1 =
      SearchOutcome.response ⟨none, none, some 0,
        some ErrMsg.captchaDetected, none, none⟩ ∧
    (searchStep ⟨true, true, true, none, 0⟩
      (iterSearch ⟨true, true, true, none, 0⟩ [97] 0 4
        ⟨some 0, [], 0, [], [], 0, 0, false⟩) [97] 0).1 =
      SearchOutcome.response ⟨none, none, some 0,
        some ErrMsg.captchaDetected, none, none⟩ := by
  decide

/-- C3 (amended): a challenge detection makes `search` return the fixed
typed CAPTCHA error; the daemon keeps no consecutive-challenge counter
and, however many consecutive challenges occur, it never tears down or
relaunches the shared browser resource, enters no cooldown, and the
cache is untouched. -/
theorem challenge_no_escalation (env : Env) (s : DaemonState) (q : Str)
    (wid b n : Nat)
    (hco : env.constructOk = true) (hnav : env.navOk = true)
    (hcap : env.captcha = true)
    (hb : s.browserContext = some b)
    (hmiss : mapHas s.cache (cacheKey q) = false)
    (hact : s.activeTabs < MAX_CONCURRENT)
    (hq : s.waitQueue = []) :
    (searchStep env s q wid).1 =
      SearchOutcome.response ⟨none, none, some env.elapsed,
        some ErrMsg.captchaDetected, none, none⟩ ∧
    (iterSearch env q wid n s).browserContext = some b ∧
    (iterSearch env q wid n s).cache = s.cache := by
  have hone := searchStep_err env s q wid hact hmiss hco hnav
    ErrMsg.captchaDetected (Or.inl ⟨hcap, rfl⟩)
  refine ⟨hone.1, ?_⟩
  clear hone
  induction n generalizing s with
  | zero => exact ⟨hb, rfl⟩
  | succ n ih =>
    have hstep := searchStep_err env s q wid hact hmiss hco hnav
      ErrMsg.captchaDetected (Or.inl ⟨hcap, rfl⟩)
    have hqs := hstep.2.2.2 hq
    have hb' : (searchStep env s q wid).2.1.browserContext = some b :=
      hstep.2.2.1 b hb
    have hc' : (searchStep env s q wid).2.1.cache = s.cache := hstep.2.1
    have hmiss' : mapHas (searchStep env s q wid).2.1.cache (cacheKey q) = false := by
      rw [hc']
      exact hmiss
    have hact' : (searchStep env s q wid).2.1.activeTabs < MAX_CONCURRENT := by
      rw [hqs.1]
      exact hact
    have hres := ih (searchStep env s q wid).2.1 hb' hmiss' hact' hqs.2
    rw [iterSearch]
    exact ⟨hres.1, by rw [hres.2, hc']⟩

/-- Witness for `challenge_no_escalation`: two consecutive challenges on
a concrete state leave the browser handle and cache untouched. -/
theorem challenge_no_escalation_witness :
    (searchStep ⟨true, true, true, none, 2⟩
      ⟨some 9, [([98], [99])], 1, [], [], 0, 0, false⟩ [97] 0).1 =
      SearchOutcome.response ⟨none, none, some 2,
        some ErrMsg.captchaDetected, none, none⟩ ∧
    (iterSearch ⟨true, true, true, none, 2⟩ [97] 0 2
      ⟨some 9, [([98], [99])], 1, [], [], 0, 0, false⟩).browserContext = some 9 ∧
    (iterSearch ⟨true, true, true, none, 2⟩ [97] 0 2
      ⟨some 9, [([98], [99])], 1, [], [], 0, 0, false⟩).cache = [([98], [99])] :=
  challenge_no_escalation _ _ _ _ 9 2 (by decide) (by decide) (by decide)
    (by decide) (by decide) (by decide) (by decide)

-- ═══════════════════════════════════════════════════════════════
-- Pool release (C5)
-- ═══════════════════════════════════════════════════════════════

/-- Counterexample to C5: a retrieval whose navigation failed (so the
handle is not known-usable) still returns its freshly constructed page
(id 7) to the below-capacity pool, where the spec's
`release(handle, healthy)` would discard it: the code's release takes
no health input at all. -/
theorem pool_release_counterexample :
    (searchStep ⟨true, false, false, none, 0⟩
      ⟨some 0, [], 0, [], [], 7, 1, false⟩ [97] 0).2.1.pagePool = [7] ∧
    (searchStep ⟨true, false, false, none, 0⟩
      ⟨some 0, [], 0, [], [], 7, 1, false⟩ [97] 0).1 =
      SearchOutcome.response ⟨none, none, some 0,
        some ErrMsg.navigationFailed, none, none⟩ ∧
    releaseSpec ([] : List Nat) 7 false = [] ∧
    ([7] : List Nat) ≠ [] := by
  decide

/-- C5 (amended): the `finally` release returns the handle to the pool
whenever the pool is below `MAX_POOL_SIZE` — regardless of whether the
handle is still usable — and discards (closes) it at capacity; a handle
released below capacity is the one returned by the very next
`getPage` checkout, with the rest of the state untouched (no page is
reconstructed). -/
theorem pool_release_stack (pool : List Nat) (p : Nat) (env : Env)
    (s : DaemonState) (rest : List Nat)
    (hcap : pool.length < MAX_POOL_SIZE)
    (hpool : s.pagePool = p :: rest) :
    poolReleasePage pool p = p :: pool ∧
    (∀ pool' : List Nat, ¬ pool'.length < MAX_POOL_SIZE →
      poolReleasePage pool' p = pool') ∧
    getPage env s = Except.ok (p, { s with pagePool := rest }) := by
  refine ⟨?_, ?_, ?_⟩
  · unfold poolReleasePage
    rw [if_pos hcap]
  · intro pool' h
    unfold poolReleasePage
    rw [if_neg h]
  · unfold getPage
    rw [hpool]

/-- Witness for `pool_release_stack`: releasing page 5 into a pool of
two puts it on top, and the next checkout from a state whose pool is
`[5, 3]` returns exactly page 5 without constructing anything. -/
theorem pool_release_stack_witness :
    poolReleasePage [3, 4] 5 = [5, 3, 4] ∧
    (∀ pool' : List Nat, ¬ pool'.length < MAX_POOL_SIZE →
      poolReleasePage pool' 5 = pool') ∧
    getPage ⟨true, true, false, none, 0⟩
      ⟨some 0, [], 1, [], [5, 3], 9, 1, false⟩ =
      Except.ok (5, ⟨some 0, [], 1, [], [3], 9, 1, false⟩) :=
  pool_release_stack [3, 4] 5 ⟨true, true, false, none, 0⟩
    ⟨some 0, [], 1, [], [5, 3], 9, 1, false⟩ [3] (by decide) (by decide)

-- ═══════════════════════════════════════════════════════════════
-- Lifecycle (C8)
-- ═══════════════════════════════════════════════════════════════

/-- C8: a stop request is answered with `{"stopped": true}` strictly
before the process-exit event of the deferred shutdown; after shutdown
the socket file is absent and the process has exited; the explicit stop
path and both termination-signal handlers drive the one `shutdown`
function; and `shutdown` is idempotent on the state. -/
theorem stop_shutdown_ordering :
    (∀ s : LifeState, ∃ mids : List Event,
      (stopRequestTrace s).2 =
        Event.writeResponse stoppedResponse :: (mids ++ [Event.exitProcess])) ∧
    (∀ s : LifeState, (stopRequestTrace s).1.socketExists = false ∧
      (stopRequestTrace s).1.exited = true) ∧
    (∀ s : LifeState, sigintStep s = shutdown s ∧ sigtermStep s = shutdown s ∧
      stopRequestTrace s =
        ((shutdown { s with idleTimerArmed := true }).1,
         Event.writeResponse stoppedResponse ::
           (shutdown { s with idleTimerArmed := true }).2)) ∧
    (∀ s : LifeState,
      shutdown (shutdown s).1 =
        ((shutdown s).1, [Event.unlinkSocket, Event.exitProcess])) := by
  refine ⟨?_, ?_, ?_, ?_⟩
  · intro s
    by_cases hb : s.browserOpen <;> by_cases hs : s.serverOpen
    · exact ⟨[Event.closeBrowser, Event.closeServer, Event.unlinkSocket],
        by simp [stopRequestTrace, shutdown, hb, hs]⟩
    · exact ⟨[Event.closeBrowser, Event.unlinkSocket],
        by simp [stopRequestTrace, shutdown, hb, hs]⟩
    · exact ⟨[Event.closeServer, Event.unlinkSocket],
        by simp [stopRequestTrace, shutdown, hb, hs]⟩
    · exact ⟨[Event.unlinkSocket],
        by simp [stopRequestTrace, shutdown, hb, hs]⟩
  · intro s
    by_cases hb : s.browserOpen <;> by_cases hs : s.serverOpen <;>
      simp [stopRequestTrace, shutdown, hb, hs]
  · intro s
    refine ⟨rfl, rfl, ?_⟩
    by_cases hb : s.browserOpen <;> by_cases hs : s.serverOpen <;>
      simp [stopRequestTrace, shutdown, hb, hs]
  · intro s
    by_cases hb : s.browserOpen <;> by_cases hs : s.serverOpen <;>
      simp [shutdown, hb, hs]

-- ═══════════════════════════════════════════════════════════════
-- Browser initialization (C9)
-- ═══════════════════════════════════════════════════════════════

/-- C9: when the profile directory is missing, the first `initContext`
call rejects with `profileNotFound` and leaves that rejected promise
cached in `browserLaunching`; every later call — even after the profile
reappears on disk — returns the identical cached rejection without
touching the state or the filesystem; by contrast, a launch-call
failure clears `browserLaunching`, so only the profile-missing
rejection is sticky. -/
theorem profile_missing_sticky (env env' : InitEnv) (n : Nat)
    (hfs : env.profileExists = false) :
    initContext env ⟨none, none, n⟩ =
      (Except.error InitErr.profileNotFound,
       ⟨none, some (Except.error InitErr.profileNotFound), n⟩) ∧
    (∀ s : InitState, s.browserContext = none →
      s.browserLaunching = some (Except.error InitErr.profileNotFound) →
      initContext env' s = (Except.error InitErr.profileNotFound, s)) ∧
    (env'.profileExists = true → env'.launchOk = false →
      (initContext env' ⟨none, none, n⟩).2.browserLaunching = none) := by
  refine ⟨?_, ?_, ?_⟩
  · simp [initContext, hfs]
  · intro s h1 h2
    simp [initContext, h1, h2]
  · intro h1 h2
    simp [initContext, h1, h2]

/-- Witness for `profile_missing_sticky`: the first call with the
profile missing caches the rejection, and a later call in an
environment where the profile exists again still returns the same
`profileNotFound` rejection unchanged. -/
theorem profile_missing_sticky_witness :
    initContext ⟨false, true, false⟩ ⟨none, none, 0⟩ =
      (Except.error InitErr.profileNotFound,
       ⟨none, some (Except.error InitErr.profileNotFound), 0⟩) ∧
    initContext ⟨true, true, false⟩
      ⟨none, some (Except.error InitErr.profileNotFound), 0⟩ =
      (Except.error InitErr.profileNotFound,
       ⟨none, some (Except.error InitErr.profileNotFound), 0⟩) := by
  have h := profile_missing_sticky ⟨false, true, false⟩ ⟨true, true, false⟩ 0 (by decide)
  exact ⟨h.1, h.2.1 ⟨none, some (Except.error InitErr.profileNotFound), 0⟩ rfl rfl⟩

-- ═══════════════════════════════════════════════════════════════
-- Invalid requests (C10)
-- ═══════════════════════════════════════════════════════════════

/-- `!data || typeof data.query !== 'string'` from `handleRequest`. -/
def isInvalidReq (data : Option RequestData) : Bool :=
  match data with
  | none => true
  | some d =>
    match d.query with
    | none => true
    | some j => !j.isStr

/-- C10: a request whose `query` field is missing or not a string gets
exactly the `{"error": "Invalid request"}` response — no `timeMs`, no
other field — no search runs (the ledger is zero and cache, pool,
admission counter and wait queue are untouched), and the idle timer is
still rearmed. -/
theorem invalid_request_rejected (env : Env) (s : DaemonState)
    (data : Option RequestData) (wid : Nat)
    (h : isInvalidReq data = true) :
    handleRequest env s data wid =
      (HandlerResult.reply invalidResponse,
       { s with idleArmed := true }, ⟨0, 0, 0, 0⟩) ∧
    invalidResponse.error = some ErrMsg.invalidRequest ∧
    invalidResponse.timeMs = none ∧
    invalidResponse.markdown = none ∧
    invalidResponse.stopped = none ∧
    ErrMsg.text ErrMsg.invalidRequest = "Invalid request" ∧
    { s with idleArmed := true }.cache = s.cache ∧
    { s with idleArmed := true }.pagePool = s.pagePool ∧
    { s with idleArmed := true }.activeTabs = s.activeTabs ∧
    { s with idleArmed := true }.waitQueue = s.waitQueue := by
  refine ⟨?_, rfl, rfl, rfl, rfl, rfl, rfl, rfl, rfl, rfl⟩
  cases data with
  | none => rfl
  | some d =>
    cases hq : d.query with
    | none => simp [handleRequest, hq]
    | some j =>
      cases j with
      | str q =>
        exfalso
        simp [isInvalidReq, hq, Json.isStr] at h
      | num m => simp [handleRequest, hq]
      | boolean b => simp [handleRequest, hq]
      | null => simp [handleRequest, hq]

/-- Witness for `invalid_request_rejected`: a request whose `query` is
the number 5 is rejected with exactly the invalid-request response and
an untouched state apart from the rearmed idle timer. -/
theorem invalid_request_rejected_witness :
    handleRequest ⟨true, true, false, none, 0⟩
      ⟨some 0, [([98], [99])], 1, [2], [3], 4, 1, false⟩
      (some ⟨some (Json.num 5)⟩) 0 =
      (HandlerResult.reply invalidResponse,
       ⟨some 0, [([98], [99])], 1, [2], [3], 4, 1, true⟩, ⟨0, 0, 0, 0⟩) ∧
    invalidResponse.timeMs = none :=
  ⟨(invalid_request_rejected ⟨true, true, false, none, 0⟩
      ⟨some 0, [([98], [99])], 1, [2], [3], 4, 1, false⟩
      (some ⟨some (Json.num 5)⟩) 0 (by decide)).1,
   (invalid_request_rejected ⟨true, true, false, none, 0⟩
      ⟨some 0, [([98], [99])], 1, [2], [3], 4, 1, false⟩
      (some ⟨some (Json.num 5)⟩) 0 (by decide)).2.2.1⟩

end ISearch
